import Mathlib

/-!
Verification of the Delta Lake DynamoDB LogStore concurrent integration-test
harness (`storage-dynamodb/integration_tests/dynamodb_logstore.py`) and of the
two-phase commit protocol of the log store it exercises.

The harness script is embedded shallowly:

* configuration phase (lines 46-60): environment lookup with defaults,
  Python `int()` parsing, and the skip-and-exit-0 branch when
  `DELTA_TABLE_PATH` is unset;
* table phase (lines 86-107, 125-140): the Delta table is a list of rows
  `{run_id, id, a}`; `write_tx n` appends one row
  `[RUN_ID, random.randrange(2**16), n]`; `count()` filters by `run_id` and
  takes the length; the final phase prints the observed count, asserts it
  equals `num_rows`, and on success prints a throughput line
  `num_rows / (time.time() - start_t)`;
* reader loop (lines 110-116): `read_data` polls `count()`, prints, sleeps
  one interval, and exits at the first observation of the stop event;
* main-thread ordering (lines 125-137): a small-step machine over
  writer-completion, stop-signal, reader-exit and final-count events, whose
  guards mirror the blocking behaviour of `pool.map`, `stop_reading.set()`,
  `thread.join()` and the final `count()`;
* the commit protocol itself (the DynamoDB LogStore) is not part of the
  given sources; it is modelled from the specification's §4.1-4.2
  (temp-object staging, ledger `putIfAbsent` claim, idempotent canonical
  copy, best-effort completeness flag).
-/

namespace DeltaVerify

/-- Process environment: maps a variable name to its value when the variable
is set, mirroring `os.environ.get`. -/
def Env : Type := String → Option String

/-- Leading and trailing whitespace stripped from a character list, as Python
`int()` does around a numeral. -/
def stripWs (cs : List Char) : List Char :=
  ((cs.dropWhile Char.isWhitespace).reverse.dropWhile Char.isWhitespace).reverse

/-- Value of a run of decimal digits. -/
def digitsVal (cs : List Char) : Nat :=
  cs.foldl (fun a c => 10 * a + (c.toNat - 48)) 0

/-- A nonempty all-digit run parsed to a number, otherwise `none`. -/
def digitsToNat? (cs : List Char) : Option Nat :=
  if cs.isEmpty then none
  else if cs.all Char.isDigit then some (digitsVal cs) else none

/-- Model of Python `int(s)` on a string argument: optional surrounding
whitespace, an optional sign, then a nonempty digit run; anything else raises
`ValueError`, modelled as `none`. -/
def pyInt? (s : String) : Option Int :=
  match stripWs s.data with
  | [] => none
  | '-' :: rest => (digitsToNat? rest).map fun n => -(n : Int)
  | '+' :: rest => (digitsToNat? rest).map fun n => (n : Int)
  | cs => (digitsToNat? cs).map fun n => (n : Int)

/-- Configuration assembled from the environment (script lines 46-55). -/
structure Config where
  tablePath : String
  writers : Int
  readers : Int
  numRows : Int
  storage : String
  dynamoTable : String
  region : String
  errorRates : String
deriving DecidableEq, Repr

/-- Outcome of the configuration phase: a `ValueError` from `int()` before
the skip check, the skip branch (prints the skip message and calls
`sys.exit(0)` before any `SparkSession` is created), or a full run with the
assembled configuration. -/
inductive StartResult where
| parseError
| skip
| run (c : Config)
deriving DecidableEq, Repr

/-- Model of `int(os.environ.get(key, dflt))` where `dflt` is an integer
literal: when the variable is absent the integer default is used unchanged;
when present its string value must parse. -/
def getConf (env : Env) (key : String) (dflt : Int) : Option Int :=
  match env key with
  | none => some dflt
  | some s => pyInt? s

/-- Configuration phase of the harness, script lines 46-60: the three numeric
variables are parsed first (lines 47-49, each may raise `ValueError`), the
string variables are read with their defaults (lines 52-55), and only then is
the `DELTA_TABLE_PATH is None` skip check performed (lines 57-60). -/
def startHarness (env : Env) : StartResult :=
  match getConf env "DELTA_CONCURRENT_WRITERS" 2,
        getConf env "DELTA_CONCURRENT_READERS" 2,
        getConf env "DELTA_NUM_ROWS" 16 with
  | some w, some r, some n =>
    match env "DELTA_TABLE_PATH" with
    | none => StartResult.skip
    | some p =>
      StartResult.run
        { tablePath := p
          writers := w
          readers := r
          numRows := n
          storage := (env "DELTA_STORAGE").getD "io.delta.storage.DynamoDBLogStore"
          dynamoTable := (env "DELTA_DYNAMO_TABLE").getD "delta_log_test"
          region := (env "DELTA_DYNAMO_REGION").getD "us-west-2"
          errorRates := (env "DELTA_DYNAMO_ERROR_RATES").getD "" }
  | _, _, _ => StartResult.parseError

/-- One row of the Delta table, schema `run_id: string, id: int, a: int`
(script line 86). -/
structure Row where
  run_id : String
  id : Int
  a : Int
deriving DecidableEq, Repr

/-- The row committed by writer task `n` (script line 97):
`[RUN_ID, random.randrange(2**16), n]`. `rand n` is the pseudo-random draw
made by task `n`; `randrange(2**16)` keeps it below `65536`. -/
def writeTxRow (runId : String) (rand : Nat → Nat) (n : Nat) : Row :=
  { run_id := runId, id := ((rand n % 65536 : Nat) : Int), a := (n : Int) }

/-- One `write_tx` call (script lines 96-98): appends task `n`'s single row
to the table. -/
def writeTx (runId : String) (rand : Nat → Nat) (t : List Row) (n : Nat) : List Row :=
  t ++ [writeTxRow runId rand n]

/-- The table after `pool.map(write_tx, range(num_rows))` has completed
(script line 129): the tasks' appends land in some completion order `order`
(a permutation of `range num_rows` in a full run). -/
def runWriters (runId : String) (rand : Nat → Nat) (t : List Row) (order : List Nat) :
    List Row :=
  order.foldl (writeTx runId rand) t

/-- The empty batch `spark.createDataFrame([], SCHEMA)` (script line 90). -/
def emptyBatch : List Row := []

/-- The create-table-if-not-exists append of the empty batch
(script line 93). -/
def initTableWrite (t : List Row) : List Row :=
  t ++ emptyBatch

/-- Model of `count()` (script lines 101-107): load the table, filter on
`run_id == RUN_ID`, take the length. -/
def countRun (t : List Row) (runId : String) : Nat :=
  (t.filter fun r => r.run_id == runId).length

/-- Human-readable output lines of the harness, identified by constructor:
the startup log block (which includes `number of rows: {num_rows}`, lines
62-73), the readers' `Reading {cnt} rows ...` lines, the
`Number of written rows: {actual}` line, the `{...} tx / sec` summary line,
and the final DynamoDB scan item print. -/
inductive Line where
| header (numRows : Nat)
| readPoll (cnt : Nat)
| writtenRows (cnt : Nat)
| throughput (q : ℚ)
| scanItem
deriving DecidableEq, Repr

/-- Outcome of the harness run: normal completion, or the `AssertionError`
raised by `assert actual == num_rows` (script line 137). -/
inductive Outcome where
| ok
| assertionFailed
deriving DecidableEq, Repr

/-- True exactly on throughput summary lines. -/
def Line.isThroughputLine : Line → Bool
| Line.throughput _ => true
| _ => false

/-- True exactly on `Number of written rows` lines. -/
def Line.isWrittenRowsLine : Line → Bool
| Line.writtenRows _ => true
| _ => false

/-- End-to-end functional model of one harness run (script lines 62-140).
`pre` is whatever the table held before the run, `order` the completion order
of the writer tasks, `polls` the counts the readers printed while the run was
in flight, `tStart` the `time.time()` sample taken on line 128 immediately
before `pool.map` starts the writers, and `tEnd` the sample on line 139.
The final count is taken once; if it equals `num_rows` the assertion passes
and the throughput line `num_rows / (tEnd - tStart)` plus the DynamoDB scan
print follow, otherwise the `AssertionError` halts the script with no
further output and no retry. -/
def harnessRun (numRows : Nat) (pre : List Row) (runId : String) (rand : Nat → Nat)
    (order : List Nat) (polls : List Nat) (tStart tEnd : ℚ) : List Line × Outcome :=
  let table := runWriters runId rand (initTableWrite pre) order
  let actual := countRun table runId
  let headLines := Line.header numRows :: polls.map Line.readPoll
  if actual = numRows then
    (headLines ++ [Line.writtenRows actual,
      Line.throughput ((numRows : ℚ) / (tEnd - tStart)), Line.scanItem],
     Outcome.ok)
  else
    (headLines ++ [Line.writtenRows actual], Outcome.assertionFailed)

/-- Events of one reader's `read_data` loop body (script lines 112-116):
a `count()` call, the `Reading {cnt} rows ...` print of that same value, and
the `time.sleep(1)` interval. -/
inductive REv where
| poll (cnt : Nat)
| printed (cnt : Nat)
| slept
deriving DecidableEq, Repr

/-- Shallow embedding of `read_data` (script lines 112-116). `flag k` is the
value the `k`-th `stop_reading.is_set()` check observes and `cnt k` the value
the `k`-th `count()` call returns. The loop is run on explicit fuel; `none`
means the fuel ran out with the loop still going, `some evs` that the loop
observed the stop signal and exited after emitting `evs`. -/
def readData (flag : Nat → Bool) (cnt : Nat → Nat) : Nat → Nat → Option (List REv)
| 0, _ => none
| fuel + 1, k =>
  if flag k then some []
  else (readData flag cnt fuel (k + 1)).map
    fun evs => REv.poll (cnt k) :: REv.printed (cnt k) :: REv.slept :: evs

/-- The event list `read_data` emits when it performs exactly `k` full
poll-print-sleep iterations starting at check index `i`. -/
def readTrace (cnt : Nat → Nat) : Nat → Nat → List REv
| 0, _ => []
| k + 1, i =>
  REv.poll (cnt i) :: REv.printed (cnt i) :: REv.slept :: readTrace cnt k (i + 1)

/-- Events of the concurrent run, newest first in a trace: completion of one
`write_tx` task, `stop_reading.set()`, one reader `count()` poll, one reader
thread exiting its loop, and the final authoritative `count()` on
line 135. -/
inductive Ev where
| writeDone (n : Nat)
| stopSet
| pollEv (i : Nat)
| readerExit (i : Nat)
| finalCount
deriving DecidableEq, Repr

/-- True exactly on writer-completion events. -/
def Ev.isWrite : Ev → Bool
| Ev.writeDone _ => true
| _ => false

/-- True exactly on the stop-signal event. -/
def Ev.isStop : Ev → Bool
| Ev.stopSet => true
| _ => false

/-- True exactly on reader-exit events. -/
def Ev.isExit : Ev → Bool
| Ev.readerExit _ => true
| _ => false

/-- True exactly on the final-count event. -/
def Ev.isFinal : Ev → Bool
| Ev.finalCount => true
| _ => false

/-- Interleaved state of the harness threads (script lines 110-137):
how many of the `num_rows` writer tasks have completed, whether
`stop_reading` is set, which reader threads are still in their loop
(`live[i] = true`), whether the final count has run, and the event trace so
far (newest first). -/
structure HState where
  writesDone : Nat
  stopFlag : Bool
  live : List Bool
  counted : Bool
  trace : List Ev
deriving DecidableEq, Repr

/-- Initial state: no writes, stop event clear, all `R` reader threads
running, final count not yet taken. -/
def hInit (R : Nat) : HState :=
  { writesDone := 0, stopFlag := false, live := List.replicate R true,
    counted := false, trace := [] }

/-- Small-step interleaving semantics of the harness with `W` writer tasks.
The guards come straight from the script: a writer task can complete only
while tasks remain (`pool.map` dispatches exactly `range(num_rows)`);
`stop_reading.set()` runs only once `pool.map` has returned, i.e. all `W`
tasks are done (line 129-130); a reader can poll only while its loop is
live; a reader exits its loop only once it observes the stop flag set
(line 113); the final count runs only after the stop flag is set and every
reader thread has been joined (lines 132-135). -/
inductive HStep (W : Nat) : HState → HState → Prop
| write (s : HState) (h : s.writesDone < W) :
    HStep W s
      { writesDone := s.writesDone + 1, stopFlag := s.stopFlag, live := s.live,
        counted := s.counted, trace := Ev.writeDone s.writesDone :: s.trace }
| stop (s : HState) (h : s.writesDone = W) (h2 : s.stopFlag = false) :
    HStep W s
      { writesDone := s.writesDone, stopFlag := true, live := s.live,
        counted := s.counted, trace := Ev.stopSet :: s.trace }
| pollStep (s : HState) (i : Nat) (h : s.live.get? i = some true) :
    HStep W s
      { writesDone := s.writesDone, stopFlag := s.stopFlag, live := s.live,
        counted := s.counted, trace := Ev.pollEv i :: s.trace }
| exitR (s : HState) (i : Nat) (h : s.live.get? i = some true)
    (hf : s.stopFlag = true) :
    HStep W s
      { writesDone := s.writesDone, stopFlag := s.stopFlag,
        live := s.live.set i false, counted := s.counted,
        trace := Ev.readerExit i :: s.trace }
| countStep (s : HState) (hf : s.stopFlag = true)
    (hl : ∀ b ∈ s.live, b = false) (hc : s.counted = false) :
    HStep W s
      { writesDone := s.writesDone, stopFlag := s.stopFlag, live := s.live,
        counted := true, trace := Ev.finalCount :: s.trace }

/-- Reachability of a harness state from the initial state with `W` writer
tasks and `R` reader threads. -/
def HReach (W R : Nat) (s : HState) : Prop :=
  Relation.ReflTransGen (HStep W) (hInit R) s

/-- A ledger entry for one claimed version, §3 of the specification:
the writer that won the claim, the temp path its payload was staged at, and
the completeness flag. -/
structure LedgerEntry where
  writer : Nat
  tempPath : Nat
  complete : Bool
deriving DecidableEq, Repr

/-- Modelled from the spec: ground-truth state of the commit protocol for one
log (§3, §4.1-4.2) — the store's temp objects by path, the ledger entries by
version, and the canonical objects by version. The DynamoDB LogStore
implementation itself is not among the given sources; only the harness that
drives it is. -/
structure StoreState where
  temp : Nat → Option (List Nat)
  ledger : Nat → Option LedgerEntry
  canonical : Nat → Option (List Nat)

/-- Initial store: no temp objects, no ledger entries, no canonical
objects. -/
def initStore : StoreState :=
  { temp := fun _ => none, ledger := fun _ => none, canonical := fun _ => none }

/-- Modelled from the spec: one protocol step of any writer or reader
(§4.1-4.2). `putTemp` stages a payload at a fresh temp path (write path
step 1). `claim` is `ledger.putIfAbsent`: it succeeds only when the version
has no entry, recording the winner and its temp path with `complete = false`
(step 2); a losing writer takes no step. `copyCanonical` is the idempotent
`overwrite = false` copy from the claimed temp object to the canonical path,
used both by the winning writer (step 3) and by recovery (§4.2): it only
fires when the canonical object is absent or already holds the same bytes.
`setComplete` is the best-effort completeness update (step 4), which keeps
the winner and temp path unchanged. -/
inductive SStep : StoreState → StoreState → Prop
| putTemp (s : StoreState) (p : Nat) (pl : List Nat) (h : s.temp p = none) :
    SStep s { s with temp := Function.update s.temp p (some pl) }
| claim (s : StoreState) (w v p : Nat) (pl : List Nat)
    (hv : s.ledger v = none) (hp : s.temp p = some pl) :
    SStep s { s with ledger := (Function.update s.ledger v
      (some { writer := w, tempPath := p, complete := false })) }
| copyCanonical (s : StoreState) (v : Nat) (e : LedgerEntry) (pl : List Nat)
    (he : s.ledger v = some e) (hpl : s.temp e.tempPath = some pl)
    (hc : s.canonical v = none ∨ s.canonical v = some pl) :
    SStep s { s with canonical := Function.update s.canonical v (some pl) }
| setComplete (s : StoreState) (v : Nat) (e : LedgerEntry)
    (he : s.ledger v = some e) :
    SStep s { s with ledger := (Function.update s.ledger v
      (some { writer := e.writer, tempPath := e.tempPath, complete := true })) }

/-- Zero or more protocol steps. -/
def SSteps : StoreState → StoreState → Prop :=
  Relation.ReflTransGen SStep

/-- Reachability of a store state from the empty initial store. -/
def SReach (s : StoreState) : Prop :=
  SSteps initStore s

/-- Example protocol run, stage 1: payload `[5]` staged at temp path 0. -/
def stEx1 : StoreState :=
  { initStore with temp := Function.update initStore.temp 0 (some [5]) }

/-- Example protocol run, stage 2: writer 7 claims version 0. -/
def stEx2 : StoreState :=
  { stEx1 with ledger := (Function.update stEx1.ledger 0
      (some { writer := 7, tempPath := 0, complete := false })) }

/-- Example protocol run, stage 3: the canonical copy for version 0. -/
def stEx3 : StoreState :=
  { stEx2 with canonical := Function.update stEx2.canonical 0 (some [5]) }

/-- Example harness interleaving with one writer task and one reader, run to
completion: one write, the stop signal, the reader exit, the final count. -/
def hEx : HState :=
  { writesDone := 1, stopFlag := true, live := [false], counted := true,
    trace := [Ev.finalCount, Ev.readerExit 0, Ev.stopSet, Ev.writeDone 0] }

/-- Example environment: `DELTA_TABLE_PATH` unset, but the writers variable
holds a string `int()` rejects. -/
def envBad : Env :=
  fun k => if k = "DELTA_CONCURRENT_WRITERS" then some "x" else none

/-- Example environment: only `DELTA_TABLE_PATH` is set. -/
def envOnlyPath : Env :=
  fun k => if k = "DELTA_TABLE_PATH" then some "s3a://bucket/tbl" else none

/-- Invariant of the commit protocol: every ledger entry's temp path holds a
staged payload, and every canonical object holds exactly the payload staged
at the temp path of its version's ledger entry. -/
def StoreInv (s : StoreState) : Prop :=
  (∀ v e, s.ledger v = some e → ∃ pl, s.temp e.tempPath = some pl) ∧
  (∀ v pl, s.canonical v = some pl →
    ∃ e, s.ledger v = some e ∧ s.temp e.tempPath = some pl)

/-- Invariant of the harness interleaving machine with `W` writer tasks and
`R` reader threads. It tracks, besides bookkeeping between the state fields
and the trace, the ordering facts behind claim C5: before the stop signal no
reader has exited and no count has run; once the stop signal is in the trace,
every event older than it is one of the `W` writer completions or a poll, the
reader exits and the final count all sit above it, and a state that has taken
the final count has it as the newest event with all `R` reader exits below. -/
def HInv (W R : Nat) (s : HState) : Prop :=
  s.live.length = R ∧
  s.writesDone ≤ W ∧
  s.trace.countP Ev.isWrite = s.writesDone ∧
  (s.stopFlag = false →
    s.counted = false ∧
    s.trace.countP Ev.isStop = 0 ∧
    s.trace.countP Ev.isExit = 0 ∧
    s.trace.countP Ev.isFinal = 0 ∧
    s.live.count false = 0) ∧
  (s.stopFlag = true →
    s.writesDone = W ∧
    ∃ a b, s.trace = a ++ Ev.stopSet :: b ∧
      a.countP Ev.isStop = 0 ∧ b.countP Ev.isStop = 0 ∧
      a.countP Ev.isWrite = 0 ∧ b.countP Ev.isWrite = W ∧
      b.countP Ev.isExit = 0 ∧ b.countP Ev.isFinal = 0 ∧
      a.countP Ev.isExit = s.live.count false ∧
      (s.counted = false → a.countP Ev.isFinal = 0) ∧
      (s.counted = true → ∃ a2, a = Ev.finalCount :: a2 ∧
        a2.countP Ev.isFinal = 0 ∧ s.live.count false = R))

/-! Helper lemmas about the table model. -/

/-- Folding the per-task appends lands the written rows behind the existing
table contents in completion order. -/
theorem runWriters_eq_append (runId : String) (rand : Nat → Nat) (t : List Row)
    (order : List Nat) :
    runWriters runId rand t order = t ++ order.map (writeTxRow runId rand) := by
  induction order generalizing t with
  | nil => simp [runWriters]
  | cons n rest ih =>
    show runWriters runId rand (writeTx runId rand t n) rest = _
    rw [ih, writeTx]
    simp

/-- The run-filtered count distributes over table concatenation. -/
theorem countRun_append (s t : List Row) (runId : String) :
    countRun (s ++ t) runId = countRun s runId + countRun t runId := by
  simp [countRun, List.filter_append]

/-- Every written row passes the run-id filter, so the written rows
contribute exactly their number to the count. -/
theorem countRun_writes (runId : String) (rand : Nat → Nat) (order : List Nat) :
    countRun (order.map (writeTxRow runId rand)) runId = order.length := by
  induction order with
  | nil => rfl
  | cons n rest ih =>
    simp only [List.map_cons, countRun, List.filter_cons, writeTxRow]
    simp only [countRun] at ih
    simp [ih]

/-- A table none of whose rows carry the run id contributes nothing to the
count. -/
theorem countRun_fresh (pre : List Row) (runId : String)
    (h : ∀ r ∈ pre, r.run_id ≠ runId) : countRun pre runId = 0 := by
  simp only [countRun, List.length_eq_zero, List.filter_eq_nil_iff]
  intro r hr
  simpa using h r hr

/-- With a fresh run id, the final table counts exactly the rows the run's
writer tasks appended. -/
theorem countRun_run (pre : List Row) (runId : String) (rand : Nat → Nat)
    (order : List Nat) (h : ∀ r ∈ pre, r.run_id ≠ runId) :
    countRun (runWriters runId rand (initTableWrite pre) order) runId =
      order.length := by
  rw [runWriters_eq_append, countRun_append, countRun_writes]
  have : countRun (initTableWrite pre) runId = 0 := by
    simpa [initTableWrite, emptyBatch] using countRun_fresh pre runId h
  omega

/-- Reader poll lines never count as another kind of line. -/
theorem countP_map_readPoll (polls : List Nat) (p : Line → Bool)
    (h : ∀ c, p (Line.readPoll c) = false) :
    (polls.map Line.readPoll).countP p = 0 := by
  induction polls with
  | nil => rfl
  | cons c cs ih => simp [List.countP_cons, h, ih]

/-- C1: after all `num_rows` writer tasks complete — each task commits
exactly one transaction, so they are the spec's `W` writer workers — the
harness performs one final authoritative count of the rows visible for the
run id, that count equals `num_rows`, the assertion passes, and the harness
proceeds to report throughput. -/
theorem C1_final_count_equals_writers (numRows : Nat) (pre : List Row)
    (runId : String) (rand : Nat → Nat) (order : List Nat) (polls : List Nat)
    (tStart tEnd : ℚ)
    (hfresh : ∀ r ∈ pre, r.run_id ≠ runId)
    (hperm : order.Perm (List.range numRows)) :
    countRun (runWriters runId rand (initTableWrite pre) order) runId = numRows ∧
    (harnessRun numRows pre runId rand order polls tStart tEnd).2 = Outcome.ok ∧
    Line.throughput ((numRows : ℚ) / (tEnd - tStart)) ∈
      (harnessRun numRows pre runId rand order polls tStart tEnd).1 := by
  have hcount : countRun (runWriters runId rand (initTableWrite pre) order) runId
      = numRows := by
    rw [countRun_run pre runId rand order hfresh, hperm.length_eq,
      List.length_range]
  refine ⟨hcount, ?_, ?_⟩ <;> simp [harnessRun, hcount]

/-- Witness for C1 at two writer tasks completing out of order on an empty
table. -/
theorem C1_witness :
    (∀ r ∈ ([] : List Row), r.run_id ≠ "r") ∧
    ([1, 0].Perm (List.range 2)) ∧
    (countRun (runWriters "r" (fun _ => 0) (initTableWrite []) [1, 0]) "r" = 2 ∧
     (harnessRun 2 [] "r" (fun _ => 0) [1, 0] [] 0 2).2 = Outcome.ok ∧
     Line.throughput (((2 : Nat) : ℚ) / (2 - 0)) ∈
       (harnessRun 2 [] "r" (fun _ => 0) [1, 0] [] 0 2).1) :=
  ⟨fun r hr => absurd hr (List.not_mem_nil r), by decide,
   C1_final_count_equals_writers 2 [] "r" (fun _ => 0) [1, 0] [] 0 2
     (fun r hr => absurd hr (List.not_mem_nil r)) (by decide)⟩

/-- C3 counterexample: the claim as stated — distinct transactions of a run
always carry distinct discriminators — fails for the random discriminator,
the `id` column drawn by `random.randrange(2**16)` on line 97: nothing stops
two tasks from drawing the same value. With both draws equal to 0, tasks 0
and 1 commit payloads with the same discriminator. -/
theorem C3_counterexample :
    ¬ (∀ (runId : String) (rand : Nat → Nat) (m n : Nat), m ≠ n →
        (writeTxRow runId rand m).id ≠ (writeTxRow runId rand n).id) := by
  intro h
  exact h "r" (fun _ => 0) 0 1 (by decide) rfl

/-- C3 amended: every committed row is tagged with the shared run id, and
distinct transactions commit distinct payloads — because each row carries its
task index in column `a` — but the random `id` discriminator itself is not
guaranteed unique across writers. -/
theorem C3_run_id_and_distinct_rows (runId : String) (rand : Nat → Nat)
    (m n : Nat) (hmn : m ≠ n) :
    (writeTxRow runId rand m).run_id = runId ∧
    (writeTxRow runId rand n).run_id = runId ∧
    writeTxRow runId rand m ≠ writeTxRow runId rand n := by
  refine ⟨rfl, rfl, fun h => hmn ?_⟩
  have ha := congrArg Row.a h
  simpa [writeTxRow] using ha

/-- Witness for the amended C3 at tasks 0 and 1 with colliding random
draws. -/
theorem C3_witness :
    (0 : Nat) ≠ 1 ∧
    ((writeTxRow "r" (fun _ => 0) 0).run_id = "r" ∧
     (writeTxRow "r" (fun _ => 0) 1).run_id = "r" ∧
     writeTxRow "r" (fun _ => 0) 0 ≠ writeTxRow "r" (fun _ => 0) 1) :=
  ⟨by decide, C3_run_id_and_distinct_rows "r" (fun _ => 0) 0 1 (by decide)⟩

/-- C4: when the final count differs from `num_rows`, the harness halts with
the `AssertionError` of line 137 instead of retrying: the outcome is the
assertion failure, the output ends at the observed-count line — the expected
count was reported in the startup log block, the observed count in the
`Number of written rows` line, printed exactly once since the final count is
taken exactly once — and no throughput line is ever emitted. -/
theorem C4_assert_mismatch_halts (numRows : Nat) (pre : List Row)
    (runId : String) (rand : Nat → Nat) (order : List Nat) (polls : List Nat)
    (tStart tEnd : ℚ)
    (hmis : countRun (runWriters runId rand (initTableWrite pre) order) runId
      ≠ numRows) :
    (harnessRun numRows pre runId rand order polls tStart tEnd).2 =
      Outcome.assertionFailed ∧
    Line.header numRows ∈
      (harnessRun numRows pre runId rand order polls tStart tEnd).1 ∧
    Line.writtenRows
        (countRun (runWriters runId rand (initTableWrite pre) order) runId) ∈
      (harnessRun numRows pre runId rand order polls tStart tEnd).1 ∧
    (harnessRun numRows pre runId rand order polls tStart tEnd).1.countP
      Line.isWrittenRowsLine = 1 ∧
    ∀ q, Line.throughput q ∉
      (harnessRun numRows pre runId rand order polls tStart tEnd).1 := by
  refine ⟨?_, ?_, ?_, ?_, ?_⟩ <;>
    simp [harnessRun, hmis, List.countP_append, List.countP_cons,
      countP_map_readPoll polls Line.isWrittenRowsLine fun c => rfl,
      Line.isWrittenRowsLine]

/-- Witness for C4: two tasks expected but only task 0's append landed, a
lost-write run. -/
theorem C4_witness :
    countRun (runWriters "r" (fun _ => 0) (initTableWrite []) [0]) "r" ≠ 2 ∧
    ((harnessRun 2 [] "r" (fun _ => 0) [0] [] 0 2).2 = Outcome.assertionFailed ∧
     Line.header 2 ∈ (harnessRun 2 [] "r" (fun _ => 0) [0] [] 0 2).1 ∧
     Line.writtenRows
         (countRun (runWriters "r" (fun _ => 0) (initTableWrite []) [0]) "r") ∈
       (harnessRun 2 [] "r" (fun _ => 0) [0] [] 0 2).1 ∧
     (harnessRun 2 [] "r" (fun _ => 0) [0] [] 0 2).1.countP
       Line.isWrittenRowsLine = 1 ∧
     ∀ q, Line.throughput q ∉ (harnessRun 2 [] "r" (fun _ => 0) [0] [] 0 2).1) :=
  ⟨by decide, C4_assert_mismatch_halts 2 [] "r" (fun _ => 0) [0] [] 0 2 (by decide)⟩

/-- C7: on a successful run the harness emits exactly one throughput summary
line, and its value is `num_rows` divided by the elapsed wall-clock time
between the `time.time()` sample taken on line 128, immediately before
`pool.map` starts the writers, and the sample taken after the assertion. -/
theorem C7_single_throughput_line (numRows : Nat) (pre : List Row)
    (runId : String) (rand : Nat → Nat) (order : List Nat) (polls : List Nat)
    (tStart tEnd : ℚ)
    (hfresh : ∀ r ∈ pre, r.run_id ≠ runId)
    (hperm : order.Perm (List.range numRows)) :
    (harnessRun numRows pre runId rand order polls tStart tEnd).1.countP
      Line.isThroughputLine = 1 ∧
    Line.throughput ((numRows : ℚ) / (tEnd - tStart)) ∈
      (harnessRun numRows pre runId rand order polls tStart tEnd).1 := by
  have hcount : countRun (runWriters runId rand (initTableWrite pre) order) runId
      = numRows := by
    rw [countRun_run pre runId rand order hfresh, hperm.length_eq,
      List.length_range]
  refine ⟨?_, ?_⟩ <;>
    simp [harnessRun, hcount, List.countP_append, List.countP_cons,
      countP_map_readPoll polls Line.isThroughputLine fun c => rfl,
      Line.isThroughputLine]

/-- Witness for C7 on a two-task run with elapsed time 2. -/
theorem C7_witness :
    (∀ r ∈ ([] : List Row), r.run_id ≠ "r") ∧
    ([0, 1].Perm (List.range 2)) ∧
    ((harnessRun 2 [] "r" (fun _ => 0) [0, 1] [] 0 2).1.countP
       Line.isThroughputLine = 1 ∧
     Line.throughput (((2 : Nat) : ℚ) / (2 - 0)) ∈
       (harnessRun 2 [] "r" (fun _ => 0) [0, 1] [] 0 2).1) :=
  ⟨fun r hr => absurd hr (List.not_mem_nil r), by decide,
   C7_single_throughput_line 2 [] "r" (fun _ => 0) [0, 1] [] 0 2
     (fun r hr => absurd hr (List.not_mem_nil r)) (by decide)⟩

/-- C9: the create-if-absent write of line 93 appends the empty batch, so it
adds zero rows; with a fresh run id the visible count for the run is exactly
0 before the first writer transaction; and the final count counts exactly the
rows appended by the run's writer tasks, whatever the table held before. -/
theorem C9_empty_init_append (pre : List Row) (runId : String)
    (rand : Nat → Nat) (order : List Nat)
    (hfresh : ∀ r ∈ pre, r.run_id ≠ runId) :
    initTableWrite pre = pre ∧
    countRun (initTableWrite pre) runId = 0 ∧
    countRun (runWriters runId rand (initTableWrite pre) order) runId =
      order.length := by
  refine ⟨by simp [initTableWrite, emptyBatch], ?_,
    countRun_run pre runId rand order hfresh⟩
  simpa [initTableWrite, emptyBatch] using countRun_fresh pre runId hfresh

/-- Witness for C9 over a table holding a foreign run's row. -/
theorem C9_witness :
    (∀ r ∈ [Row.mk "other" 3 4], r.run_id ≠ "r") ∧
    (initTableWrite [Row.mk "other" 3 4] = [Row.mk "other" 3 4] ∧
     countRun (initTableWrite [Row.mk "other" 3 4]) "r" = 0 ∧
     countRun (runWriters "r" (fun _ => 5) (initTableWrite [Row.mk "other" 3 4])
       [0, 1, 2]) "r" = 3) :=
  ⟨by decide, C9_empty_init_append [Row.mk "other" 3 4] "r" (fun _ => 5)
    [0, 1, 2] (by decide)⟩

/-- C8 counterexample: the claim quantifies over every environment with
`DELTA_TABLE_PATH` unset, but the script parses the numeric variables
(lines 47-49) before the skip check (line 57), so an unparsable
`DELTA_CONCURRENT_WRITERS` raises `ValueError` first and the skip branch is
never reached. -/
theorem C8_counterexample :
    envBad "DELTA_TABLE_PATH" = none ∧
    startHarness envBad ≠ StartResult.skip := by
  refine ⟨by decide, ?_⟩
  decide

/-- C8 amended: in every environment where `DELTA_TABLE_PATH` is unset and
each numeric variable is either unset or accepted by `int()`, the harness
prints the skip message and exits with status 0, before any session is
created and before any write, read or assertion. -/
theorem C8_skip_on_missing_path (env : Env)
    (hpath : env "DELTA_TABLE_PATH" = none)
    (hw : (getConf env "DELTA_CONCURRENT_WRITERS" 2).isSome = true)
    (hr : (getConf env "DELTA_CONCURRENT_READERS" 2).isSome = true)
    (hn : (getConf env "DELTA_NUM_ROWS" 16).isSome = true) :
    startHarness env = StartResult.skip := by
  obtain ⟨w, hw'⟩ := Option.isSome_iff_exists.mp hw
  obtain ⟨r, hr'⟩ := Option.isSome_iff_exists.mp hr
  obtain ⟨n, hn'⟩ := Option.isSome_iff_exists.mp hn
  simp [startHarness, hw', hr', hn', hpath]

/-- Witness for the amended C8: the empty environment skips. -/
theorem C8_witness :
    ((fun _ => none : Env) "DELTA_TABLE_PATH" = none ∧
     (getConf (fun _ => none) "DELTA_CONCURRENT_WRITERS" 2).isSome = true ∧
     (getConf (fun _ => none) "DELTA_CONCURRENT_READERS" 2).isSome = true ∧
     (getConf (fun _ => none) "DELTA_NUM_ROWS" 16).isSome = true) ∧
    startHarness (fun _ => none) = StartResult.skip :=
  ⟨⟨rfl, rfl, rfl, rfl⟩,
   C8_skip_on_missing_path (fun _ => none) rfl rfl rfl rfl⟩

/-- C10: with the table path set and every other input variable absent, the
harness runs with the defaults of lines 47-55: 2 writers, 2 readers, 16
transactions, the non-failure-injecting class
`io.delta.storage.DynamoDBLogStore`, ledger table `delta_log_test`, region
`us-west-2`, and the empty error-rate configuration. -/
theorem C10_default_configuration (env : Env) (p : String)
    (hpath : env "DELTA_TABLE_PATH" = some p)
    (h1 : env "DELTA_CONCURRENT_WRITERS" = none)
    (h2 : env "DELTA_CONCURRENT_READERS" = none)
    (h3 : env "DELTA_NUM_ROWS" = none)
    (h4 : env "DELTA_STORAGE" = none)
    (h5 : env "DELTA_DYNAMO_TABLE" = none)
    (h6 : env "DELTA_DYNAMO_REGION" = none)
    (h7 : env "DELTA_DYNAMO_ERROR_RATES" = none) :
    startHarness env = StartResult.run
      { tablePath := p, writers := 2, readers := 2, numRows := 16,
        storage := "io.delta.storage.DynamoDBLogStore",
        dynamoTable := "delta_log_test", region := "us-west-2",
        errorRates := "" } := by
  simp [startHarness, getConf, hpath, h1, h2, h3, h4, h5, h6, h7]

/-- Witness for C10 on the environment that sets only the table path. -/
theorem C10_witness :
    (envOnlyPath "DELTA_TABLE_PATH" = some "s3a://bucket/tbl" ∧
     envOnlyPath "DELTA_CONCURRENT_WRITERS" = none ∧
     envOnlyPath "DELTA_CONCURRENT_READERS" = none ∧
     envOnlyPath "DELTA_NUM_ROWS" = none ∧
     envOnlyPath "DELTA_STORAGE" = none ∧
     envOnlyPath "DELTA_DYNAMO_TABLE" = none ∧
     envOnlyPath "DELTA_DYNAMO_REGION" = none ∧
     envOnlyPath "DELTA_DYNAMO_ERROR_RATES" = none) ∧
    startHarness envOnlyPath = StartResult.run
      { tablePath := "s3a://bucket/tbl", writers := 2, readers := 2,
        numRows := 16, storage := "io.delta.storage.DynamoDBLogStore",
        dynamoTable := "delta_log_test", region := "us-west-2",
        errorRates := "" } :=
  ⟨⟨by decide, by decide, by decide, by decide, by decide, by decide,
    by decide, by decide⟩,
   C10_default_configuration envOnlyPath "s3a://bucket/tbl" (by decide)
     (by decide) (by decide) (by decide) (by decide) (by decide) (by decide)
     (by decide)⟩

/-- When the first `k` stop-flag observations are false and the `k`-th check
starting from index `i` observes the flag set, `read_data` performs exactly
`k` poll-print-sleep iterations and exits. -/
theorem readData_run (flag : Nat → Bool) (cnt : Nat → Nat) (k : Nat) :
    ∀ i, (∀ j, j < k → flag (i + j) = false) → flag (i + k) = true →
      readData flag cnt (k + 1) i = some (readTrace cnt k i) := by
  induction k with
  | zero =>
    intro i _ hk
    simp only [Nat.add_zero] at hk
    simp [readData, readTrace, hk]
  | succ k ih =>
    intro i hbefore hk
    have h0 : flag i = false := by simpa using hbefore 0 (Nat.succ_pos k)
    have hrest : readData flag cnt (k + 1) (i + 1) = some (readTrace cnt k (i + 1)) := by
      refine ih (i + 1) (fun j hj => ?_) ?_
      · have := hbefore (j + 1) (by omega)
        have harith : i + 1 + j = i + (j + 1) := by omega
        rw [harith]
        exact this
      · have harith : i + 1 + k = i + (k + 1) := by omega
        rw [harith]
        exact hk
    rw [readData]
    simp [h0, hrest, readTrace]

/-- The reader emits three events per full iteration. -/
theorem readTrace_length (cnt : Nat → Nat) (k : Nat) :
    ∀ i, (readTrace cnt k i).length = 3 * k := by
  induction k with
  | zero => intro i; rfl
  | succ k ih =>
    intro i
    simp only [readTrace, List.length_cons, ih (i + 1)]
    omega

/-- C6: each reader runs `read_data` (lines 112-116): as long as the stop
event is unobserved it calls `count()` filtered by the run id, prints that
per-poll count as a progress line, sleeps one interval, and it exits the loop
at the first observation of the stop signal, having emitted exactly three
events per iteration. -/
theorem C6_reader_polls_until_stop (tables : Nat → List Row) (runId : String)
    (flag : Nat → Bool) (k : Nat)
    (hbefore : ∀ j, j < k → flag j = false) (hk : flag k = true) :
    readData flag (fun j => countRun (tables j) runId) (k + 1) 0 =
      some (readTrace (fun j => countRun (tables j) runId) k 0) ∧
    (readTrace (fun j => countRun (tables j) runId) k 0).length = 3 * k := by
  refine ⟨readData_run flag (fun j => countRun (tables j) runId) k 0
    (fun j hj => by simpa using hbefore j hj) (by simpa using hk),
    readTrace_length (fun j => countRun (tables j) runId) k 0⟩

/-- Witness for C6: a reader that sees the stop flag on its third check. -/
theorem C6_witness :
    (∀ j, j < 2 → (fun j => decide (2 ≤ j)) j = false) ∧
    (fun j => decide (2 ≤ j)) 2 = true ∧
    (readData (fun j => decide (2 ≤ j))
        (fun j => countRun (List.replicate j (Row.mk "r" 0 0)) "r") 3 0 =
      some (readTrace
        (fun j => countRun (List.replicate j (Row.mk "r" 0 0)) "r") 2 0) ∧
     (readTrace (fun j => countRun (List.replicate j (Row.mk "r" 0 0)) "r")
        2 0).length = 3 * 2) :=
  ⟨by decide, by decide,
   C6_reader_polls_until_stop (fun j => List.replicate j (Row.mk "r" 0 0)) "r"
     (fun j => decide (2 ≤ j)) 2 (by decide) (by decide)⟩

/-- Temp objects are never overwritten or deleted by a protocol step. -/
theorem SStep_temp_stable {s s' : StoreState} (h : SStep s s') (p : Nat)
    (pl : List Nat) (hp : s.temp p = some pl) : s'.temp p = some pl := by
  cases h with
  | putTemp q ql hq =>
    by_cases hpq : p = q
    · rw [hpq, hq] at hp
      exact absurd hp (by simp)
    · simpa [Function.update_noteq hpq] using hp
  | claim w v q ql hv hq => exact hp
  | copyCanonical v e ql he hql hc => exact hp
  | setComplete v e he => exact hp

/-- A ledger entry's winner and temp path are fixed the instant the claim is
won: no step ever changes them. -/
theorem SStep_ledger_stable {s s' : StoreState} (h : SStep s s') (v : Nat)
    (e : LedgerEntry) (he : s.ledger v = some e) :
    ∃ e', s'.ledger v = some e' ∧ e'.writer = e.writer ∧
      e'.tempPath = e.tempPath := by
  cases h with
  | putTemp q ql hq => exact ⟨e, he, rfl, rfl⟩
  | claim w v' q ql hv hq =>
    by_cases hvv : v = v'
    · rw [hvv, hv] at he
      exact absurd he (by simp)
    · exact ⟨e, by simpa [Function.update_noteq hvv] using he, rfl, rfl⟩
  | copyCanonical v' e2 ql he2 hql hc => exact ⟨e, he, rfl, rfl⟩
  | setComplete v' e2 he2 =>
    by_cases hvv : v = v'
    · subst hvv
      rw [he2] at he
      obtain rfl := Option.some.inj he
      exact ⟨{ writer := e2.writer, tempPath := e2.tempPath, complete := true },
        by simp [Function.update_same], rfl, rfl⟩
    · exact ⟨e, by simpa [Function.update_noteq hvv] using he, rfl, rfl⟩

/-- A canonical object, once present, never changes: the idempotent
`overwrite = false` copy only ever re-writes the same bytes. -/
theorem SStep_canonical_stable {s s' : StoreState} (h : SStep s s') (v : Nat)
    (pl : List Nat) (hc : s.canonical v = some pl) : s'.canonical v = some pl := by
  cases h with
  | putTemp q ql hq => exact hc
  | claim w v' q ql hv hq => exact hc
  | copyCanonical v' e ql he hql hor =>
    by_cases hvv : v = v'
    · subst hvv
      rcases hor with hnone | hsame
      · rw [hnone] at hc
        exact absurd hc (by simp)
      · rw [hsame] at hc
        cases hc
        simp [Function.update_same]
    · simpa [Function.update_noteq hvv] using hc
  | setComplete v' e he => exact hc

/-- Multi-step version of canonical-object stability. -/
theorem SSteps_canonical_stable {s s' : StoreState}
    (h : Relation.ReflTransGen SStep s s') (v : Nat) (pl : List Nat)
    (hc : s.canonical v = some pl) : s'.canonical v = some pl := by
  induction h with
  | refl => exact hc
  | tail _ hstep ih => exact SStep_canonical_stable hstep v pl ih

/-- Multi-step version of ledger-entry stability. -/
theorem SSteps_ledger_stable {s s' : StoreState}
    (h : Relation.ReflTransGen SStep s s') (v : Nat) (e : LedgerEntry)
    (he : s.ledger v = some e) :
    ∃ e', s'.ledger v = some e' ∧ e'.writer = e.writer ∧
      e'.tempPath = e.tempPath := by
  induction h with
  | refl => exact ⟨e, he, rfl, rfl⟩
  | tail _ hstep ih =>
    obtain ⟨e2, he2, hw2, hp2⟩ := ih
    obtain ⟨e3, he3, hw3, hp3⟩ := SStep_ledger_stable hstep v e2 he2
    exact ⟨e3, he3, hw3.trans hw2, hp3.trans hp2⟩

/-- The protocol invariant is preserved by every step. -/
theorem StoreInv_step {s s' : StoreState} (h : SStep s s') (hi : StoreInv s) :
    StoreInv s' := by
  obtain ⟨h1, h2⟩ := hi
  cases h with
  | putTemp q ql hq =>
    refine ⟨fun v e he => ?_, fun v pl hc => ?_⟩
    · obtain ⟨pl, hpl⟩ := h1 v e he
      have hne : e.tempPath ≠ q := fun hEq => by rw [hEq, hq] at hpl; cases hpl
      exact ⟨pl, by simpa [Function.update_noteq hne] using hpl⟩
    · obtain ⟨e, he, hpl⟩ := h2 v pl hc
      have hne : e.tempPath ≠ q := fun hEq => by rw [hEq, hq] at hpl; cases hpl
      exact ⟨e, he, by simpa [Function.update_noteq hne] using hpl⟩
  | claim w v' q ql hv hq =>
    refine ⟨fun v e he => ?_, fun v pl hc => ?_⟩
    · by_cases hvv : v = v'
      · subst hvv
        simp only [Function.update_same] at he
        obtain rfl := Option.some.inj he
        exact ⟨ql, hq⟩
      · simp only [Function.update_noteq hvv] at he
        exact h1 v e he
    · obtain ⟨e, he, hpl⟩ := h2 v pl hc
      by_cases hvv : v = v'
      · subst hvv
        rw [hv] at he
        simp at he
      · exact ⟨e, by simpa [Function.update_noteq hvv] using he, hpl⟩
  | copyCanonical v' e2 ql he2 hql hor =>
    refine ⟨fun v e he => h1 v e he, fun v pl hc => ?_⟩
    by_cases hvv : v = v'
    · subst hvv
      simp only [Function.update_same] at hc
      obtain rfl := Option.some.inj hc
      exact ⟨e2, he2, hql⟩
    · simp only [Function.update_noteq hvv] at hc
      exact h2 v pl hc
  | setComplete v' e2 he2 =>
    refine ⟨fun v e he => ?_, fun v pl hc => ?_⟩
    · by_cases hvv : v = v'
      · subst hvv
        simp only [Function.update_same] at he
        obtain rfl := Option.some.inj he
        obtain ⟨pl, hpl⟩ := h1 _ e2 he2
        exact ⟨pl, hpl⟩
      · simp only [Function.update_noteq hvv] at he
        exact h1 v e he
    · obtain ⟨e, he, hpl⟩ := h2 v pl hc
      by_cases hvv : v = v'
      · subst hvv
        rw [he2] at he
        obtain rfl := Option.some.inj he
        refine ⟨{ writer := e2.writer, tempPath := e2.tempPath, complete := true },
          ?_, hpl⟩
        simp [Function.update_same]
      · exact ⟨e, by simpa [Function.update_noteq hvv] using he, hpl⟩

/-- The protocol invariant holds in every reachable store state. -/
theorem SReach_inv (s : StoreState) (h : SReach s) : StoreInv s := by
  have h' : Relation.ReflTransGen SStep initStore s := h
  clear h
  induction h' with
  | refl =>
    refine ⟨fun v e he => absurd he ?_, fun v pl hc => absurd hc ?_⟩ <;>
      simp [initStore]
  | tail _ hstep ih => exact StoreInv_step hstep ih

/-- C2 spec-modelled: for every version `v`, exactly one writer's payload is
ever stored at `v`. Over any execution of the commit protocol from any
reachable state: the canonical payload at `v`, once present, never changes
(no two distinct payloads ever occupy `v`); the winner and temp path recorded
by the ledger claim for `v` never change (at most one writer ever owns `v`,
even with concurrent writers racing, because `putIfAbsent` fails for all but
the first); and any stored payload is exactly the payload staged by `v`'s
unique owner. -/
theorem C2_version_uniqueness (s s' : StoreState) (hr : SReach s)
    (hs : SSteps s s') (v : Nat) :
    (∀ pl pl', s.canonical v = some pl → s'.canonical v = some pl' → pl' = pl) ∧
    (∀ e e', s.ledger v = some e → s'.ledger v = some e' →
      e'.writer = e.writer ∧ e'.tempPath = e.tempPath) ∧
    (∀ pl, s'.canonical v = some pl →
      ∃ e, s'.ledger v = some e ∧ s'.temp e.tempPath = some pl) := by
  refine ⟨fun pl pl' hc hc' => ?_, fun e e' he he' => ?_, fun pl hc => ?_⟩
  · have hstable := SSteps_canonical_stable hs v pl hc
    rw [hstable] at hc'
    cases hc'
    rfl
  · obtain ⟨e2, he2, hw2, hp2⟩ := SSteps_ledger_stable hs v e he
    rw [he2] at he'
    cases he'
    exact ⟨hw2, hp2⟩
  · exact (SReach_inv s' (Relation.ReflTransGen.trans hr hs)).2 v pl hc

/-- Witness for C2 along the concrete three-step execution `stEx3`: writer 7
staged `[5]`, claimed version 0 and produced the canonical copy; the stored
payload is the unique owner's staged payload. -/
theorem C2_witness :
    SReach stEx3 ∧ SSteps stEx3 stEx3 ∧
    (∃ e, stEx3.ledger 0 = some e ∧ stEx3.temp e.tempPath = some [5]) := by
  have h1 : SStep initStore stEx1 := SStep.putTemp initStore 0 [5] rfl
  have h2 : SStep stEx1 stEx2 := SStep.claim stEx1 7 0 0 [5] rfl rfl
  have h3 : SStep stEx2 stEx3 :=
    SStep.copyCanonical stEx2 0 { writer := 7, tempPath := 0, complete := false }
      [5] rfl rfl (Or.inl rfl)
  have hreach : SReach stEx3 :=
    Relation.ReflTransGen.tail
      (Relation.ReflTransGen.tail
        (Relation.ReflTransGen.tail Relation.ReflTransGen.refl h1) h2) h3
  exact ⟨hreach, Relation.ReflTransGen.refl,
    (C2_version_uniqueness stEx3 stEx3 hreach Relation.ReflTransGen.refl 0).2.2
      [5] rfl⟩

/-- A fresh pool of reader threads has no exited entry. -/
theorem count_false_replicate (R : Nat) :
    (List.replicate R true).count false = 0 := by
  induction R with
  | zero => rfl
  | succ R ih => simp [List.replicate_succ, List.count_cons, ih]

/-- Marking a live thread as exited raises the exited tally by one. -/
theorem count_false_set (l : List Bool) :
    ∀ i, l.get? i = some true → (l.set i false).count false = l.count false + 1 := by
  induction l with
  | nil => intro i h; cases h
  | cons b t ih =>
    intro i h
    cases i with
    | zero =>
      simp only [List.get?_cons_zero] at h
      obtain rfl := Option.some.inj h
      simp [List.count_cons]
    | succ i =>
      simp only [List.get?_cons_succ] at h
      cases b <;> simp [List.count_cons, ih i h]

/-- The exited tally saturates exactly when every thread has exited. -/
theorem count_false_eq_length (l : List Bool) :
    l.count false = l.length ↔ ∀ b ∈ l, b = false := by
  rw [List.count_eq_countP, List.countP_eq_length]
  constructor
  · intro h b hb
    simpa using h b hb
  · intro h b hb
    simp [h b hb]

/-- An indexed lookup hit is a member. -/
theorem mem_of_get?_some {l : List Bool} :
    ∀ {i : Nat} {b : Bool}, l.get? i = some b → b ∈ l := by
  induction l with
  | nil => intro i b h; cases h
  | cons a t ih =>
    intro i b h
    cases i with
    | zero =>
      simp only [List.get?_cons_zero] at h
      obtain rfl := Option.some.inj h
      exact List.mem_cons_self a t
    | succ i =>
      simp only [List.get?_cons_succ] at h
      exact List.mem_cons_of_mem a (ih h)

/-- The harness machine invariant holds initially. -/
theorem HInv_init (W R : Nat) : HInv W R (hInit R) := by
  refine ⟨by simp [hInit], by simp [hInit], by simp [hInit], ?_, ?_⟩
  · intro _
    exact ⟨rfl, rfl, rfl, rfl, count_false_replicate R⟩
  · intro hfl
    simp [hInit] at hfl

/-- The harness machine invariant is preserved by every step. -/
theorem HInv_step (W R : Nat) {s s' : HState} (h : HStep W s s')
    (hi : HInv W R s) : HInv W R s' := by
  obtain ⟨hlen, hle, hwc, hfalse, htrue⟩ := hi
  cases h with
  | write hlt =>
    refine ⟨hlen, by show s.writesDone + 1 ≤ W; omega, ?_, ?_, ?_⟩
    · simp [List.countP_cons, Ev.isWrite, hwc]
    · intro hf
      obtain ⟨hc0, hs0, he0, hf0, hl0⟩ := hfalse hf
      exact ⟨hc0, by simp [List.countP_cons, Ev.isStop, hs0],
        by simp [List.countP_cons, Ev.isExit, he0],
        by simp [List.countP_cons, Ev.isFinal, hf0], hl0⟩
    · intro ht
      have := (htrue ht).1
      omega
  | stop hW hsf =>
    obtain ⟨hc0, hs0, he0, hf0, hl0⟩ := hfalse hsf
    refine ⟨hlen, hle, by simp [List.countP_cons, Ev.isWrite, hwc], ?_, ?_⟩
    · intro hf
      simp at hf
    · intro _
      refine ⟨hW, [], s.trace, rfl, rfl, hs0, rfl, ?_, he0, hf0, ?_, ?_, ?_⟩
      · rw [hwc, hW]
      · simpa using hl0.symm
      · intro _
        rfl
      · intro hct
        rw [hc0] at hct
        cases hct
  | pollStep i hlive =>
    refine ⟨hlen, hle, by simp [List.countP_cons, Ev.isWrite, hwc], ?_, ?_⟩
    · intro hf
      obtain ⟨hc0, hs0, he0, hf0, hl0⟩ := hfalse hf
      exact ⟨hc0, by simp [List.countP_cons, Ev.isStop, hs0],
        by simp [List.countP_cons, Ev.isExit, he0],
        by simp [List.countP_cons, Ev.isFinal, hf0], hl0⟩
    · intro ht
      obtain ⟨hW, a, b, htr, hsa, hsb, hwa, hwb, heb, hfb, hea, hcf, hct⟩ :=
        htrue ht
      refine ⟨hW, Ev.pollEv i :: a, b, by rw [htr]; rfl,
        by simp [List.countP_cons, Ev.isStop, hsa], hsb,
        by simp [List.countP_cons, Ev.isWrite, hwa], hwb, heb, hfb,
        by simp [List.countP_cons, Ev.isExit, hea], ?_, ?_⟩
      · intro hq
        simp [List.countP_cons, Ev.isFinal, hcf hq]
      · intro hq
        obtain ⟨a2, ha2, hf2, hR⟩ := hct hq
        exfalso
        have hall : ∀ b ∈ s.live, b = false :=
          (count_false_eq_length s.live).mp (by rw [hR, hlen])
        have : (true : Bool) = false := hall true (mem_of_get?_some hlive)
        cases this
  | exitR i hlive hsf =>
    refine ⟨by simpa using hlen, hle,
      by simp [List.countP_cons, Ev.isWrite, hwc], ?_, ?_⟩
    · intro hf
      rw [hsf] at hf
      cases hf
    · intro _
      obtain ⟨hW, a, b, htr, hsa, hsb, hwa, hwb, heb, hfb, hea, hcf, hct⟩ :=
        htrue hsf
      have hcf2 : s.counted = false := by
        by_contra hq
        have hq' : s.counted = true := by
          revert hq
          cases s.counted <;> simp
        obtain ⟨a2, ha2, hf2, hR⟩ := hct hq'
        have hall : ∀ b ∈ s.live, b = false :=
          (count_false_eq_length s.live).mp (by rw [hR, hlen])
        have : (true : Bool) = false := hall true (mem_of_get?_some hlive)
        cases this
      refine ⟨hW, Ev.readerExit i :: a, b, by rw [htr]; rfl,
        by simp [List.countP_cons, Ev.isStop, hsa], hsb,
        by simp [List.countP_cons, Ev.isWrite, hwa], hwb, heb, hfb, ?_, ?_, ?_⟩
      · rw [count_false_set s.live i hlive]
        simp [List.countP_cons, Ev.isExit, hea]
      · intro _
        simp [List.countP_cons, Ev.isFinal, hcf hcf2]
      · intro hq
        rw [hcf2] at hq
        cases hq
  | countStep hsf hall hcnf =>
    refine ⟨hlen, hle, by simp [List.countP_cons, Ev.isWrite, hwc], ?_, ?_⟩
    · intro hf
      rw [hsf] at hf
      cases hf
    · intro _
      obtain ⟨hW, a, b, htr, hsa, hsb, hwa, hwb, heb, hfb, hea, hcf, hct⟩ :=
        htrue hsf
      refine ⟨hW, Ev.finalCount :: a, b, by rw [htr]; rfl,
        by simp [List.countP_cons, Ev.isStop, hsa], hsb,
        by simp [List.countP_cons, Ev.isWrite, hwa], hwb, heb, hfb,
        by simp [List.countP_cons, Ev.isExit, hea], ?_, ?_⟩
      · intro hq
        cases hq
      · intro _
        exact ⟨a, rfl, hcf hcnf,
          by rw [(count_false_eq_length s.live).mpr hall, hlen]⟩

/-- The harness machine invariant holds in every reachable state. -/
theorem HReach_inv (W R : Nat) (s : HState) (h : HReach W R s) : HInv W R s := by
  have h' : Relation.ReflTransGen (HStep W) (hInit R) s := h
  clear h
  induction h' with
  | refl => exact HInv_init W R
  | tail _ hstep ih => exact HInv_step W R hstep ih

/-- C5: in every reachable state of the harness machine in which the final
authoritative count has run, the trace (newest first) decomposes as the final
count, then a segment holding exactly the `R` reader exits and no writer
completion, then the single stop signal, then a segment holding exactly the
`W` writer completions and no reader exit: the stop signal was delivered only
after every writer transaction completed, every reader exited only after the
stop signal and before the final count, and the final count is the newest
event — it never runs while writers are still committing or readers are still
in their loops. -/
theorem C5_final_count_is_last (W R : Nat) (s : HState) (h : HReach W R s)
    (hc : s.counted = true) :
    ∃ a b, s.trace = Ev.finalCount :: (a ++ Ev.stopSet :: b) ∧
      a.countP Ev.isExit = R ∧ a.countP Ev.isWrite = 0 ∧
      a.countP Ev.isStop = 0 ∧ a.countP Ev.isFinal = 0 ∧
      b.countP Ev.isWrite = W ∧ b.countP Ev.isExit = 0 ∧
      b.countP Ev.isStop = 0 ∧ b.countP Ev.isFinal = 0 := by
  obtain ⟨hlen, hle, hwc, hfalse, htrue⟩ := HReach_inv W R s h
  have hsf : s.stopFlag = true := by
    by_contra hns
    have hsf2 : s.stopFlag = false := by
      revert hns
      cases s.stopFlag <;> simp
    rw [(hfalse hsf2).1] at hc
    cases hc
  obtain ⟨hW, a, b, htr, hsa, hsb, hwa, hwb, heb, hfb, hea, hcf, hct⟩ :=
    htrue hsf
  obtain ⟨a2, ha2, hf2, hR⟩ := hct hc
  subst ha2
  refine ⟨a2, b, by rw [htr, List.cons_append], ?_, ?_, ?_, hf2, hwb, heb, hsb, hfb⟩
  · have h1 : (Ev.finalCount :: a2).countP Ev.isExit = a2.countP Ev.isExit := by
      simp [List.countP_cons, Ev.isExit]
    rw [h1] at hea
    rw [hea, hR]
  · have h1 : (Ev.finalCount :: a2).countP Ev.isWrite = a2.countP Ev.isWrite := by
      simp [List.countP_cons, Ev.isWrite]
    rw [h1] at hwa
    exact hwa
  · have h1 : (Ev.finalCount :: a2).countP Ev.isStop = a2.countP Ev.isStop := by
      simp [List.countP_cons, Ev.isStop]
    rw [h1] at hsa
    exact hsa

/-- Witness for C5 on the one-writer one-reader run `hEx`. -/
theorem C5_witness :
    HReach 1 1 hEx ∧ hEx.counted = true ∧
    (∃ a b, hEx.trace = Ev.finalCount :: (a ++ Ev.stopSet :: b) ∧
      a.countP Ev.isExit = 1 ∧ a.countP Ev.isWrite = 0 ∧
      a.countP Ev.isStop = 0 ∧ a.countP Ev.isFinal = 0 ∧
      b.countP Ev.isWrite = 1 ∧ b.countP Ev.isExit = 0 ∧
      b.countP Ev.isStop = 0 ∧ b.countP Ev.isFinal = 0) := by
  have h1 : HStep 1 (hInit 1)
      { writesDone := 1, stopFlag := false, live := List.replicate 1 true,
        counted := false, trace := [Ev.writeDone 0] } :=
    HStep.write (hInit 1) (by decide)
  have h2 : HStep 1
      { writesDone := 1, stopFlag := false, live := List.replicate 1 true,
        counted := false, trace := [Ev.writeDone 0] }
      { writesDone := 1, stopFlag := true, live := List.replicate 1 true,
        counted := false, trace := [Ev.stopSet, Ev.writeDone 0] } :=
    HStep.stop _ rfl rfl
  have h3 : HStep 1
      { writesDone := 1, stopFlag := true, live := List.replicate 1 true,
        counted := false, trace := [Ev.stopSet, Ev.writeDone 0] }
      { writesDone := 1, stopFlag := true, live := [false],
        counted := false,
        trace := [Ev.readerExit 0, Ev.stopSet, Ev.writeDone 0] } :=
    HStep.exitR _ 0 rfl rfl
  have h4 : HStep 1
      { writesDone := 1, stopFlag := true, live := [false],
        counted := false,
        trace := [Ev.readerExit 0, Ev.stopSet, Ev.writeDone 0] } hEx :=
    HStep.countStep _ rfl (by decide) rfl
  have hreach : HReach 1 1 hEx :=
    Relation.ReflTransGen.tail
      (Relation.ReflTransGen.tail
        (Relation.ReflTransGen.tail
          (Relation.ReflTransGen.tail Relation.ReflTransGen.refl h1) h2) h3) h4
  exact ⟨hreach, rfl, C5_final_count_is_last 1 1 hEx hreach rfl⟩

end DeltaVerify
